import Mathlib

/-!
Verification of the PDDLStream translation layer of pyrobosim-beta
(`pyrobosim/planning/pddlstream/utils.py`): the world-to-facts encoder
`world_to_pddlstream_init` and the solution-to-plan decoder
`pddlstream_solution_to_plan`, shallowly embedded in Lean.

Facts are modelled as the Python code builds them: ordered tuples whose
head is the predicate name, i.e. lists of `PArg`.  Entities (robots,
rooms, spawns, objects, categories) are identified by their names;
poses and paths are opaque values threaded through unchanged, modelled
by numeric identifiers.  Python `None` appearing inside a fact tuple is
the argument `PArg.N`.  A Python exception (the `ValueError` that
`list.remove` raises when the element is absent, the `IndexError` of an
out-of-range `args[i]`) is modelled by `Option`/`Except` failure.
-/

/-- One positional component of a fact tuple: a name or category string,
an opaque pose value, or Python `None`. -/
inductive PArg where
  | S : String → PArg
  | P : Nat → PArg
  | N : PArg
deriving DecidableEq

/-- A fact is the tuple the Python code appends to `init`: predicate
name first, then the arguments. -/
abbrev PFact := List PArg

/-- Pin the boolean equality on fact tuples to the one induced by
decidable equality, so that every `erase`/`count` site agrees. -/
instance (priority := 2000) : BEq PFact := instBEqOfDecidableEq

/-- Lift an optional entity name into a fact argument; Python passes
`None` straight into the tuple. -/
def optS : Option String → PArg
  | some s => PArg.S s
  | none => PArg.N

/-- The robot slice of the world model read by the encoder: pose,
recorded current location (possibly unset) and the manipulated-object
reference (possibly unset), all by name. -/
structure Robot where
  name : String
  pose : Nat
  location : Option String
  manipulated_object : Option String

/-- A location of the world: category label, parent room, and child
spawn names (the encoder reads nothing else of it). -/
structure Loc where
  name : String
  category : String
  parent : String
  children : List String

/-- An object of the world: category label and parent location
(possibly unset, mirroring a held object whose parent is `None`). -/
structure Obj where
  name : String
  category : String
  parent : Option String

/-- The world-model snapshot consumed by `world_to_pddlstream_init`.
`get_location_from_pose` is the external pose-to-location lookup the
encoder falls back on. -/
structure World where
  robot : Robot
  rooms : List String
  locations : List Loc
  objects : List Obj
  get_location_from_pose : Nat → Option String

/-- Python `list.remove`: delete the first occurrence of `f`, raising
(`none`) when `f` is absent. -/
def removeFact (l : List PFact) (f : PFact) : Option (List PFact) :=
  if f ∈ l then some (l.erase f) else none

/-- Python `set.add` on a set modelled as a duplicate-free list kept in
first-insertion order. -/
def insertIfAbsent (l : List String) (c : String) : List String :=
  if c ∈ l then l else l ++ [c]

/-- The category set accumulated by iterating `set.add` over a list of
category labels. -/
def dedupCats (cs : List String) : List String :=
  cs.foldl insertIfAbsent []

/-- The facts appended by the rooms loop: `Room(room)`, `Location(room)`
for each room. -/
def roomFacts (rooms : List String) : List PFact :=
  rooms.flatMap (fun rm => [[PArg.S "Room", PArg.S rm], [PArg.S "Location", PArg.S rm]])

/-- The facts appended by the locations loop: for every spawn child of
every location, `Location(spawn)`, `Is(spawn, category)`,
`AtRoom(spawn, parent)`. -/
def locFacts (ls : List Loc) : List PFact :=
  ls.flatMap (fun loc => loc.children.flatMap (fun sp =>
    [[PArg.S "Location", PArg.S sp],
     [PArg.S "Is", PArg.S sp, PArg.S loc.category],
     [PArg.S "AtRoom", PArg.S sp, PArg.S loc.parent]]))

/-- The `Type(category)` facts appended from a collected category set. -/
def typeFacts (cats : List String) : List PFact :=
  cats.map (fun c => [PArg.S "Type", PArg.S c])

/-- The fact `("Obj", obj)`. -/
def objF (o : Obj) : PFact := [PArg.S "Obj", PArg.S o.name]

/-- The fact `("Is", obj, obj.category)`. -/
def isF (o : Obj) : PFact := [PArg.S "Is", PArg.S o.name, PArg.S o.category]

/-- The fact `("At", obj, obj.parent)`. -/
def atF (o : Obj) : PFact := [PArg.S "At", PArg.S o.name, optS o.parent]

/-- The fact `("Holding", robot, obj)`. -/
def holdF (r : String) (o : Obj) : PFact :=
  [PArg.S "Holding", PArg.S r, PArg.S o.name]

/-- The objects loop of `world_to_pddlstream_init`: for every object
append `Obj(obj)` and `Is(obj, category)`; when the object equals the
robot's manipulated object remove `HandEmpty(robot)` (raising when it
is already gone) and append `Holding(robot, obj)`, otherwise append
`At(obj, parent)`; collect the object's category. -/
def objLoop (r : String) (manip : Option String) :
    List Obj → List PFact → List String → Option (List PFact × List String)
  | [], init, cats => some (init, cats)
  | o :: rest, init, cats =>
    let init1 := init ++ [objF o, isF o]
    let step : Option (List PFact) :=
      if manip = some o.name then
        match removeFact init1 [PArg.S "HandEmpty", PArg.S r] with
        | none => none
        | some init2 => some (init2 ++ [holdF r o])
      else
        some (init1 ++ [atF o])
    match step with
    | none => none
    | some init3 => objLoop r manip rest init3 (insertIfAbsent cats o.category)

/-- The robot's initial location: the recorded one, or — when unset —
the one resolved from the robot's pose (`if not init_loc:` fallback). -/
def initLoc (w : World) : Option String :=
  match w.robot.location with
  | some l => some l
  | none => w.get_location_from_pose w.robot.pose

/-- The robot initial-condition facts the encoder starts from. -/
def robotFacts (w : World) : List PFact :=
  [[PArg.S "Robot", PArg.S w.robot.name],
   [PArg.S "HandEmpty", PArg.S w.robot.name],
   [PArg.S "At", PArg.S w.robot.name, optS (initLoc w)],
   [PArg.S "Pose", PArg.P w.robot.pose],
   [PArg.S "AtPose", PArg.S w.robot.name, PArg.P w.robot.pose]]

/-- The fact list built before the objects loop runs: robot facts, then
rooms, then spawns, then one `Type` fact per distinct location
category. -/
def preFacts (w : World) : List PFact :=
  robotFacts w ++ roomFacts w.rooms ++ locFacts w.locations
    ++ typeFacts (dedupCats (w.locations.map Loc.category))

/-- Function `world_to_pddlstream_init(world)` from
`pyrobosim/planning/pddlstream/utils.py`: encodes a world snapshot as
the list of initial facts, `none` modelling the `ValueError` raised
when `init.remove(("HandEmpty", robot))` finds no such fact. -/
def world_to_pddlstream_init (w : World) : Option (List PFact) :=
  match objLoop w.robot.name w.robot.manipulated_object w.objects (preFacts w) [] with
  | none => none
  | some (init3, obj_categories) =>
      some (init3 ++ typeFacts obj_categories)

/-- A positional argument of a planner-returned action: either a domain
reference (by name) or a geometric `Path` value (opaque identifier);
`isinstance(arg, Path)` distinguishes the two. -/
inductive AArg where
  | ent : String → AArg
  | path : Nat → AArg
deriving DecidableEq

/-- Python `isinstance(arg, Path)`. -/
def AArg.isPath : AArg → Bool
  | AArg.path _ => true
  | AArg.ent _ => false

/-- One action of the planner solution: a name and its positional
argument sequence. -/
structure PddlAction where
  name : String
  args : List AArg
deriving DecidableEq

/-- Modelled from the spec: `TaskAction` is a typed action whose
construction from a name leaves every type-specific field unset
(`pyrobosim/planning/actions.py` is not part of the sources); its
`type` is determined from the planner action's name. -/
structure TaskAction where
  type : String
  source_location : Option AArg := none
  target_location : Option AArg := none
  object : Option AArg := none
  pose : Option AArg := none
  path : Option AArg := none
deriving DecidableEq

/-- Modelled from the spec: `TaskPlan` is an ordered action sequence
plus a planner-reported total cost, unset until the decoder assigns
it.  The cost is threaded through verbatim and never computed with, so
it is modelled as an opaque numeric identifier. -/
structure TaskPlan where
  actions : List TaskAction
  total_cost : Option Nat := none
deriving DecidableEq

/-- The planner solution triple `(plan, total_cost, metadata)`; the
third component is unpacked and discarded by the decoder. -/
structure Solution where
  plan : Option (List PddlAction)
  total_cost : Nat
  metadata : Nat

/-- The decoder's failure mode: the `IndexError` of reading `args[i]`
past the end. -/
inductive DecodeErr where
  | indexError
deriving DecidableEq

/-- Python `args[i]`: the element at `i`, or an `IndexError`. -/
def getArg (l : List AArg) (i : Nat) : Except DecodeErr AArg :=
  match l.get? i with
  | some a => Except.ok a
  | none => Except.error DecodeErr.indexError

/-- Decode one planner action into a `TaskAction`, as the loop body of
`pddlstream_solution_to_plan` does: `navigate` reads `args[1]` and
`args[2]` and scans `args[3:]` for `Path` values, keeping the last one
seen; `pick`/`place` read `args[1]` and `args[2]` and take `args[3]` as
pose when present; any other name yields the bare named action. -/
def decodeAction (a : PddlAction) : Except DecodeErr TaskAction :=
  if a.name = "navigate" then
    match getArg a.args 1 with
    | Except.error e => Except.error e
    | Except.ok src =>
      match getArg a.args 2 with
      | Except.error e => Except.error e
      | Except.ok tgt =>
        let p := (a.args.drop 3).foldl
          (fun acc arg => if arg.isPath then some arg else acc) none
        Except.ok { type := a.name, source_location := some src,
                    target_location := some tgt, path := p }
  else if a.name = "pick" ∨ a.name = "place" then
    match getArg a.args 1 with
    | Except.error e => Except.error e
    | Except.ok ob =>
      match getArg a.args 2 with
      | Except.error e => Except.error e
      | Except.ok tgt =>
        Except.ok { type := a.name, object := some ob,
                    target_location := some tgt,
                    pose := if 3 < a.args.length then a.args.get? 3 else none }
  else
    Except.ok { type := a.name }

/-- The decoding loop: convert each planner action in order, the first
failure aborting the whole conversion as a raised exception would. -/
def decodeActions : List PddlAction → Except DecodeErr (List TaskAction)
  | [] => Except.ok []
  | a :: rest =>
    match decodeAction a with
    | Except.error e => Except.error e
    | Except.ok ta =>
      match decodeActions rest with
      | Except.error e => Except.error e
      | Except.ok tas => Except.ok (ta :: tas)

/-- Function `pddlstream_solution_to_plan(solution)` from
`pyrobosim/planning/pddlstream/utils.py`: `Except.ok none` is the
Python `None` no-plan sentinel, `Except.ok (some plan)` a returned
`TaskPlan`, and `Except.error` a raised exception. -/
def pddlstream_solution_to_plan (s : Solution) :
    Except DecodeErr (Option TaskPlan) :=
  match s.plan with
  | none => Except.ok none
  | some plan =>
    if plan.length = 0 then Except.ok none
    else
      match decodeActions plan with
      | Except.error e => Except.error e
      | Except.ok tas =>
        Except.ok (some { actions := tas, total_cost := some s.total_cost })

/-- The fact `("HandEmpty", r)`. -/
def handEmptyFact (r : String) : PFact := [PArg.S "HandEmpty", PArg.S r]

/-- Whether a fact is `("Holding", r, o)` for some object `o`. -/
def isHolding (r : String) : PFact → Bool
  | [PArg.S p, PArg.S r2, _] => p == "Holding" && r2 == r
  | _ => false

/-- Whether a fact's predicate name (the tuple head) is `h`. -/
def headIs (h : String) : PFact → Bool
  | PArg.S p :: _ => p == h
  | _ => false

/-- The facts the objects loop appends for one object that is not the
manipulated object, flattened over a run of such objects. -/
def objFacts (l : List Obj) : List PFact :=
  l.flatMap (fun o => [objF o, isF o, atF o])

/-- A concrete demonstration location: a table with one spawn. -/
def demoLoc : Loc :=
  { name := "table", category := "table", parent := "kitchen",
    children := ["table0"] }

/-- A concrete demonstration object sitting on the table spawn. -/
def appleObj : Obj :=
  { name := "apple", category := "apple", parent := some "table0" }

/-- A concrete world: one room, one table location, one apple, robot at
the table spawn with an empty hand. -/
def demoWorld : World :=
  { robot := { name := "bot", pose := 7, location := some "table0",
               manipulated_object := none },
    rooms := ["kitchen"],
    locations := [demoLoc],
    objects := [appleObj],
    get_location_from_pose := fun _ => none }

/-- Variant of `demoWorld` with a dangling manipulated-object reference: the robot
claims to hold `ghost`, which is not among the world's objects. -/
def ghostWorld : World :=
  { demoWorld with
      robot := { name := "bot", pose := 7, location := some "table0",
                 manipulated_object := some "ghost" } }

/-- Variant of `demoWorld` with no recorded robot location and a pose lookup that
resolves nothing. -/
def lostWorld : World :=
  { demoWorld with
      robot := { name := "bot", pose := 7, location := none,
                 manipulated_object := none } }

/-- A world whose single location category and single object category
coincide. -/
def sharedCatWorld : World :=
  { robot := { name := "bot", pose := 7, location := some "table0",
               manipulated_object := none },
    rooms := ["kitchen"],
    locations := [{ name := "table", category := "shared",
                    parent := "kitchen", children := ["table0"] }],
    objects := [{ name := "apple", category := "shared",
                  parent := some "table0" }],
    get_location_from_pose := fun _ => none }

/-- Variant of `demoWorld` with the robot holding the apple. -/
def holdingWorld : World :=
  { demoWorld with
      robot := { name := "bot", pose := 7, location := some "table0",
                 manipulated_object := some "apple" } }

/-- The decode-scenario navigate action: tag `navigate`, args
`(Bot, S, Kitchen, path_value)`. -/
def navActDemo : PddlAction :=
  { name := "navigate",
    args := [AArg.ent "Bot", AArg.ent "S", AArg.ent "Kitchen", AArg.path 9] }

/-- The decode-scenario solution: one navigate action, total cost 45. -/
def navSolutionDemo : Solution :=
  { plan := some [navActDemo], total_cost := 45, metadata := 0 }

/-- The expected decoded navigate action of the scenario. -/
def taNavDemo : TaskAction :=
  { type := "navigate", source_location := some (AArg.ent "S"),
    target_location := some (AArg.ent "Kitchen"), object := none,
    pose := none, path := some (AArg.path 9) }

/-- The expected decoded plan of the scenario. -/
def navPlanDemo : TaskPlan :=
  { actions := [taNavDemo], total_cost := some 45 }

/-- An action with an unrecognized tag and no arguments. -/
def danceAct : PddlAction := { name := "dance", args := [] }

/-- A solution holding only the unrecognized action. -/
def danceSolution : Solution :=
  { plan := some [danceAct], total_cost := 3, metadata := 0 }

/-- A recognized action carrying fewer than 3 positional arguments. -/
def shortNavAct : PddlAction :=
  { name := "navigate", args := [AArg.ent "Bot"] }

/-- A solution holding only the too-short navigate action. -/
def shortNavSolution : Solution :=
  { plan := some [shortNavAct], total_cost := 0, metadata := 0 }

/-- The absent-plan solution `(None, 0, {})`. -/
def emptySolution : Solution :=
  { plan := none, total_cost := 0, metadata := 0 }

lemma mem_insertIfAbsent {l : List String} {c d : String} :
    d ∈ insertIfAbsent l c ↔ d ∈ l ∨ d = c := by
  by_cases h : c ∈ l
  · rw [insertIfAbsent, if_pos h]
    exact ⟨Or.inl, fun hd => hd.elim id (fun he => he ▸ h)⟩
  · rw [insertIfAbsent, if_neg h]
    simp

lemma nodup_insertIfAbsent {l : List String} (h : l.Nodup) (c : String) :
    (insertIfAbsent l c).Nodup := by
  by_cases hc : c ∈ l
  · rw [insertIfAbsent, if_pos hc]; exact h
  · rw [insertIfAbsent, if_neg hc]
    simp [List.nodup_append, h, hc]

lemma foldl_insertIfAbsent_mem :
    ∀ (cs : List String) (acc : List String) (c : String),
    c ∈ cs.foldl insertIfAbsent acc ↔ c ∈ acc ∨ c ∈ cs := by
  intro cs
  induction cs with
  | nil => simp
  | cons a cs ih =>
    intro acc c
    rw [List.foldl_cons, ih, mem_insertIfAbsent]
    simp only [List.mem_cons]
    tauto

lemma foldl_insertIfAbsent_nodup :
    ∀ (cs : List String) (acc : List String), acc.Nodup →
    (cs.foldl insertIfAbsent acc).Nodup := by
  intro cs
  induction cs with
  | nil => exact fun acc h => h
  | cons a cs ih =>
    intro acc h
    exact ih _ (nodup_insertIfAbsent h a)

lemma dedupCats_mem {cs : List String} {c : String} :
    c ∈ dedupCats cs ↔ c ∈ cs := by
  rw [dedupCats, foldl_insertIfAbsent_mem]
  simp

lemma dedupCats_nodup (cs : List String) : (dedupCats cs).Nodup :=
  foldl_insertIfAbsent_nodup cs [] (by simp)

lemma count_typeFacts_eq_count :
    ∀ (cats : List String) (c : String),
    (typeFacts cats).count [PArg.S "Type", PArg.S c] = cats.count c := by
  intro cats
  induction cats with
  | nil => simp [typeFacts]
  | cons a cats ih =>
    intro c
    rw [show typeFacts (a :: cats) = [PArg.S "Type", PArg.S a] :: typeFacts cats from rfl]
    rw [List.count_cons, List.count_cons, ih]
    by_cases hac : c = a
    · simp [hac]
    · have hca : ¬a = c := fun h => hac h.symm
      rw [if_neg (by simp [hca]), if_neg (by simp [hca])]

lemma count_typeFacts {cats : List String} (h : cats.Nodup) (c : String) :
    (typeFacts cats).count [PArg.S "Type", PArg.S c] =
      if c ∈ cats then 1 else 0 := by
  rw [count_typeFacts_eq_count]
  by_cases hc : c ∈ cats
  · rw [if_pos hc]
    exact List.count_eq_one_of_mem h hc
  · rw [if_neg hc]
    exact List.count_eq_zero.mpr hc

lemma objLoop_cons_eq (r : String) (manip : Option String) (o : Obj)
    (rest : List Obj) (init : List PFact) (cats : List String) :
    objLoop r manip (o :: rest) init cats =
      if manip = some o.name then
        (if handEmptyFact r ∈ init ++ [objF o, isF o]
         then objLoop r manip rest
            (((init ++ [objF o, isF o]).erase (handEmptyFact r)) ++ [holdF r o])
            (insertIfAbsent cats o.category)
         else none)
      else objLoop r manip rest ((init ++ [objF o, isF o]) ++ [atF o])
            (insertIfAbsent cats o.category) := by
  by_cases hm : manip = some o.name
  · by_cases hHE : handEmptyFact r ∈ init ++ [objF o, isF o]
    · simp only [objLoop, removeFact, hm, if_pos, handEmptyFact] at *
      simp [hHE]
    · simp only [objLoop, removeFact, hm, if_pos, handEmptyFact] at *
      simp [hHE]
  · simp [objLoop, hm]

lemma objLoop_cats (r : String) (manip : Option String) :
    ∀ (l : List Obj) (init : List PFact) (cats : List String)
      (init2 : List PFact) (cats2 : List String),
    objLoop r manip l init cats = some (init2, cats2) →
    cats2 = (l.map Obj.category).foldl insertIfAbsent cats := by
  intro l
  induction l with
  | nil =>
    intro init cats init2 cats2 h
    simp [objLoop] at h
    simp [h.2]
  | cons o rest ih =>
    intro init cats init2 cats2 h
    rw [objLoop_cons_eq] at h
    split_ifs at h with hm hHE
    · exact ih _ _ _ _ h
    · exact ih _ _ _ _ h

lemma HE_ne_objF (r : String) (o : Obj) : handEmptyFact r ≠ objF o := by
  simp [handEmptyFact, objF]

lemma HE_ne_isF (r : String) (o : Obj) : handEmptyFact r ≠ isF o := by
  simp [handEmptyFact, isF]

lemma HE_ne_atF (r : String) (o : Obj) : handEmptyFact r ≠ atF o := by
  simp [handEmptyFact, atF]

lemma HE_ne_holdF (r r2 : String) (o : Obj) : handEmptyFact r ≠ holdF r2 o := by
  simp [handEmptyFact, holdF]

lemma count_HE_pair (r : String) (o : Obj) :
    ([objF o, isF o] : List PFact).count (handEmptyFact r) = 0 :=
  List.count_eq_zero.mpr (by simp [HE_ne_objF, HE_ne_isF])

lemma isHolding_HE (r r2 : String) : isHolding r (handEmptyFact r2) = false := rfl

lemma isHolding_objF (r : String) (o : Obj) : isHolding r (objF o) = false := rfl

lemma isHolding_isF (r : String) (o : Obj) : isHolding r (isF o) = false := by
  simp [isHolding, isF]

lemma isHolding_atF (r : String) (o : Obj) : isHolding r (atF o) = false := by
  cases hp : o.parent <;> simp [isHolding, atF, optS, hp]

lemma isHolding_holdF (r : String) (o : Obj) : isHolding r (holdF r o) = true := by
  simp [isHolding, holdF]

lemma countP_isHolding_pair (r : String) (o : Obj) :
    ([objF o, isF o] : List PFact).countP (isHolding r) = 0 := by
  simp [List.countP_cons, isHolding_objF, isHolding_isF]

lemma countP_erase_of_false {l : List PFact} {p : PFact → Bool} {a : PFact}
    (h : a ∈ l) (hpa : p a = false) : l.countP p = (l.erase a).countP p := by
  have hperm := List.perm_cons_erase h
  rw [hperm.countP_eq, List.countP_cons, hpa]
  simp

lemma objLoop_no_match (r : String) (manip : Option String) :
    ∀ (l : List Obj) (init : List PFact) (cats : List String),
    (∀ o ∈ l, manip ≠ some o.name) →
    objLoop r manip l init cats =
      some (init ++ objFacts l, (l.map Obj.category).foldl insertIfAbsent cats) := by
  intro l
  induction l with
  | nil =>
    intro init cats h
    simp [objLoop, objFacts]
  | cons o rest ih =>
    intro init cats h
    rw [objLoop_cons_eq, if_neg (h o (by simp))]
    rw [ih _ _ (fun o2 ho2 => h o2 (by simp [ho2]))]
    simp [objFacts]

lemma objLoop_append (r : String) (manip : Option String) :
    ∀ (la lb : List Obj) (init : List PFact) (cats : List String),
    objLoop r manip (la ++ lb) init cats =
      (objLoop r manip la init cats).bind
        (fun p => objLoop r manip lb p.1 p.2) := by
  intro la
  induction la with
  | nil =>
    intro lb init cats
    simp [objLoop]
  | cons o rest ih =>
    intro lb init cats
    rw [List.cons_append, objLoop_cons_eq, objLoop_cons_eq]
    split_ifs with hm hHE
    · exact ih _ _ _
    · simp
    · exact ih _ _ _

lemma objLoop_mem (r : String) (manip : Option String) :
    ∀ (l : List Obj) (init : List PFact) (cats : List String)
      (init2 : List PFact) (cats2 : List String),
    objLoop r manip l init cats = some (init2, cats2) →
    ∀ f : PFact, f ≠ handEmptyFact r → f ∈ init → f ∈ init2 := by
  intro l
  induction l with
  | nil =>
    intro init cats init2 cats2 h f hne hmem
    simp [objLoop] at h
    exact h.1 ▸ hmem
  | cons o rest ih =>
    intro init cats init2 cats2 h f hne hmem
    rw [objLoop_cons_eq] at h
    split_ifs at h with hm hHE
    · refine ih _ _ _ _ h f hne ?_
      exact List.mem_append_left _
        ((List.mem_erase_of_ne hne).mpr (List.mem_append_left _ hmem))
    · refine ih _ _ _ _ h f hne ?_
      exact List.mem_append_left _ (List.mem_append_left _ hmem)

lemma objLoop_count_eq (r : String) (manip : Option String) :
    ∀ (l : List Obj) (init : List PFact) (cats : List String)
      (init2 : List PFact) (cats2 : List String),
    objLoop r manip l init cats = some (init2, cats2) →
    ∀ f : PFact,
    (∀ o : Obj, f ≠ objF o) → (∀ o : Obj, f ≠ isF o) →
    (∀ o : Obj, f ≠ atF o) → (∀ o : Obj, f ≠ holdF r o) →
    f ≠ handEmptyFact r →
    init2.count f = init.count f := by
  intro l
  induction l with
  | nil =>
    intro init cats init2 cats2 h f _ _ _ _ _
    simp [objLoop] at h
    rw [h.1]
  | cons o rest ih =>
    intro init cats init2 cats2 h f hobj his hat hhold hhe
    rw [objLoop_cons_eq] at h
    split_ifs at h with hm hHE
    · rw [ih _ _ _ _ h f hobj his hat hhold hhe]
      rw [List.count_append, List.count_erase_of_ne hhe, List.count_append]
      have h1 : f ∉ ([objF o, isF o] : List PFact) := by
        simp [hobj o, his o]
      have h2 : f ∉ ([holdF r o] : List PFact) := by
        simp [hhold o]
      rw [List.count_eq_zero.mpr h1, List.count_eq_zero.mpr h2]
      omega
    · rw [ih _ _ _ _ h f hobj his hat hhold hhe]
      rw [List.count_append, List.count_append]
      have h1 : f ∉ ([objF o, isF o] : List PFact) := by
        simp [hobj o, his o]
      have h2 : f ∉ ([atF o] : List PFact) := by
        simp [hat o]
      rw [List.count_eq_zero.mpr h1, List.count_eq_zero.mpr h2]
      omega

lemma objLoop_hand (r : String) (manip : Option String) :
    ∀ (l : List Obj) (init : List PFact) (cats : List String)
      (init2 : List PFact) (cats2 : List String),
    objLoop r manip l init cats = some (init2, cats2) →
    (init.count (handEmptyFact r) = 1 ∧ init.countP (isHolding r) = 0) ∨
      (init.count (handEmptyFact r) = 0 ∧ init.countP (isHolding r) = 1) →
    (init2.count (handEmptyFact r) = 1 ∧ init2.countP (isHolding r) = 0) ∨
      (init2.count (handEmptyFact r) = 0 ∧ init2.countP (isHolding r) = 1) := by
  intro l
  induction l with
  | nil =>
    intro init cats init2 cats2 h hinv
    simp [objLoop] at h
    rw [← h.1]
    exact hinv
  | cons o rest ih =>
    intro init cats init2 cats2 h hinv
    rw [objLoop_cons_eq] at h
    split_ifs at h with hm hHE
    · refine ih _ _ _ _ h ?_
      have hcntA : (init ++ [objF o, isF o]).count (handEmptyFact r) =
          init.count (handEmptyFact r) := by
        rw [List.count_append, count_HE_pair]
        omega
      have hcntPA : (init ++ [objF o, isF o]).countP (isHolding r) =
          init.countP (isHolding r) := by
        rw [List.countP_append, countP_isHolding_pair]
        omega
      rcases hinv with ⟨h1, h2⟩ | ⟨h1, h2⟩
      · right
        constructor
        · rw [List.count_append, List.count_erase_self, hcntA, h1]
          simp [List.count_eq_zero.mpr (by simp [HE_ne_holdF] :
            handEmptyFact r ∉ ([holdF r o] : List PFact))]
        · rw [List.countP_append]
          have hera : (init ++ [objF o, isF o]).countP (isHolding r) =
              ((init ++ [objF o, isF o]).erase (handEmptyFact r)).countP (isHolding r) :=
            countP_erase_of_false hHE (isHolding_HE r r)
          rw [← hera, hcntPA, h2]
          simp [List.countP_cons, isHolding_holdF]
      · exfalso
        have : (init ++ [objF o, isF o]).count (handEmptyFact r) = 0 := by
          rw [hcntA, h1]
        exact (List.count_eq_zero.mp this) hHE
    · refine ih _ _ _ _ h ?_
      have hcnt : ((init ++ [objF o, isF o]) ++ [atF o]).count (handEmptyFact r) =
          init.count (handEmptyFact r) := by
        rw [List.count_append, List.count_append, count_HE_pair]
        simp [List.count_eq_zero.mpr (by simp [HE_ne_atF] :
          handEmptyFact r ∉ ([atF o] : List PFact))]
      have hcntP : ((init ++ [objF o, isF o]) ++ [atF o]).countP (isHolding r) =
          init.countP (isHolding r) := by
        rw [List.countP_append, List.countP_append, countP_isHolding_pair]
        simp [List.countP_cons, isHolding_atF]
      rw [hcnt, hcntP]
      exact hinv

lemma objLoop_mem_out (r : String) (manip : Option String) :
    ∀ (l : List Obj) (init : List PFact) (cats : List String)
      (init2 : List PFact) (cats2 : List String),
    objLoop r manip l init cats = some (init2, cats2) →
    ∀ f ∈ init2, f ∈ init ∨
      ∃ o ∈ l, f = objF o ∨ f = isF o ∨ f = atF o ∨ f = holdF r o := by
  intro l
  induction l with
  | nil =>
    intro init cats init2 cats2 h f hf
    simp [objLoop] at h
    exact Or.inl (h.1 ▸ hf)
  | cons o rest ih =>
    intro init cats init2 cats2 h f hf
    rw [objLoop_cons_eq] at h
    split_ifs at h with hm hHE
    · rcases ih _ _ _ _ h f hf with hin | ⟨o2, ho2, hcase⟩
      · rcases List.mem_append.mp hin with hin2 | hin2
        · rcases List.mem_append.mp (List.erase_subset _ _ hin2) with hin3 | hin3
          · exact Or.inl hin3
          · rcases List.mem_cons.mp hin3 with he | he
            · exact Or.inr ⟨o, by simp, Or.inl he⟩
            · exact Or.inr ⟨o, by simp, Or.inr (Or.inl (by simpa using he))⟩
        · exact Or.inr ⟨o, by simp, Or.inr (Or.inr (Or.inr (by simpa using hin2)))⟩
      · exact Or.inr ⟨o2, by simp [ho2], hcase⟩
    · rcases ih _ _ _ _ h f hf with hin | ⟨o2, ho2, hcase⟩
      · rcases List.mem_append.mp hin with hin2 | hin2
        · rcases List.mem_append.mp hin2 with hin3 | hin3
          · exact Or.inl hin3
          · rcases List.mem_cons.mp hin3 with he | he
            · exact Or.inr ⟨o, by simp, Or.inl he⟩
            · exact Or.inr ⟨o, by simp, Or.inr (Or.inl (by simpa using he))⟩
        · exact Or.inr ⟨o, by simp, Or.inr (Or.inr (Or.inl (by simpa using hin2)))⟩
      · exact Or.inr ⟨o2, by simp [ho2], hcase⟩

lemma mem_roomFacts {rooms : List String} {f : PFact} :
    f ∈ roomFacts rooms ↔
      ∃ rm ∈ rooms, f = [PArg.S "Room", PArg.S rm] ∨
        f = [PArg.S "Location", PArg.S rm] := by
  simp [roomFacts]

lemma mem_locFacts {ls : List Loc} {f : PFact} :
    f ∈ locFacts ls ↔
      ∃ loc ∈ ls, ∃ sp ∈ loc.children,
        f = [PArg.S "Location", PArg.S sp] ∨
        f = [PArg.S "Is", PArg.S sp, PArg.S loc.category] ∨
        f = [PArg.S "AtRoom", PArg.S sp, PArg.S loc.parent] := by
  simp [locFacts]

lemma mem_typeFacts {cats : List String} {f : PFact} :
    f ∈ typeFacts cats ↔ ∃ c ∈ cats, f = [PArg.S "Type", PArg.S c] := by
  simp [typeFacts, eq_comm]

lemma mem_objFacts {l : List Obj} {f : PFact} :
    f ∈ objFacts l ↔ ∃ o ∈ l, f = objF o ∨ f = isF o ∨ f = atF o := by
  simp [objFacts]

lemma HE_not_mem_roomFacts (r : String) (rooms : List String) :
    handEmptyFact r ∉ roomFacts rooms := by
  rw [mem_roomFacts]
  rintro ⟨rm, _, h | h⟩ <;> simp [handEmptyFact] at h

lemma HE_not_mem_locFacts (r : String) (ls : List Loc) :
    handEmptyFact r ∉ locFacts ls := by
  rw [mem_locFacts]
  rintro ⟨loc, _, sp, _, h | h | h⟩ <;> simp [handEmptyFact] at h

lemma HE_not_mem_typeFacts (r : String) (cats : List String) :
    handEmptyFact r ∉ typeFacts cats := by
  rw [mem_typeFacts]
  rintro ⟨c, _, h⟩
  simp [handEmptyFact] at h

lemma count_HE_preFacts (w : World) :
    (preFacts w).count (handEmptyFact w.robot.name) = 1 := by
  rw [preFacts, List.count_append, List.count_append, List.count_append]
  rw [List.count_eq_zero.mpr (HE_not_mem_roomFacts _ _),
      List.count_eq_zero.mpr (HE_not_mem_locFacts _ _),
      List.count_eq_zero.mpr (HE_not_mem_typeFacts _ _)]
  have : (robotFacts w).count (handEmptyFact w.robot.name) = 1 := by
    simp [robotFacts, handEmptyFact, List.count_cons]
  omega

lemma isHolding_false_of_mem_preFacts (w : World) (r : String) :
    ∀ f ∈ preFacts w, isHolding r f = false := by
  intro f hf
  rw [preFacts] at hf
  rcases List.mem_append.mp hf with hf | hf
  · rcases List.mem_append.mp hf with hf | hf
    · rcases List.mem_append.mp hf with hf | hf
      · rw [robotFacts] at hf
        cases hil : initLoc w <;>
          fin_cases hf <;> simp [isHolding, optS, hil]
      · obtain ⟨rm, _, h | h⟩ := mem_roomFacts.mp hf <;> subst h <;> rfl
    · obtain ⟨loc, _, sp, _, h | h | h⟩ := mem_locFacts.mp hf <;> subst h <;>
        simp [isHolding]
  · obtain ⟨c, _, h⟩ := mem_typeFacts.mp hf
    subst h
    rfl

lemma countP_isHolding_preFacts (w : World) (r : String) :
    (preFacts w).countP (isHolding r) = 0 :=
  List.countP_eq_zero.mpr (by
    intro f hf
    simp [isHolding_false_of_mem_preFacts w r f hf])

lemma count_HE_typeFacts (r : String) (cats : List String) :
    (typeFacts cats).count (handEmptyFact r) = 0 :=
  List.count_eq_zero.mpr (HE_not_mem_typeFacts r cats)

lemma countP_isHolding_typeFacts (r : String) (cats : List String) :
    (typeFacts cats).countP (isHolding r) = 0 :=
  List.countP_eq_zero.mpr (by
    intro f hf
    obtain ⟨c, _, h⟩ := mem_typeFacts.mp hf
    subst h
    simp [isHolding])

lemma wtpi_eq_some {w : World} {facts : List PFact}
    (h : world_to_pddlstream_init w = some facts) :
    ∃ init3 cats3,
      objLoop w.robot.name w.robot.manipulated_object w.objects
        (preFacts w) [] = some (init3, cats3) ∧
      facts = init3 ++ typeFacts cats3 := by
  unfold world_to_pddlstream_init at h
  cases hob : objLoop w.robot.name w.robot.manipulated_object w.objects
      (preFacts w) [] with
  | none =>
    rw [hob] at h
    cases h
  | some p =>
    obtain ⟨init3, cats3⟩ := p
    rw [hob] at h
    injection h with h
    exact ⟨init3, cats3, rfl, h.symm⟩

/-- C1: for every world model, the fact list returned by
`world_to_pddlstream_init` contains exactly one of `HandEmpty(robot)`
or `Holding(robot, obj)` for the world robot — never both and never
neither. -/
theorem C1_hand_state_exclusive (w : World) (facts : List PFact)
    (h : world_to_pddlstream_init w = some facts) :
    (facts.count (handEmptyFact w.robot.name) = 1 ∧
       facts.countP (isHolding w.robot.name) = 0) ∨
    (facts.count (handEmptyFact w.robot.name) = 0 ∧
       facts.countP (isHolding w.robot.name) = 1) := by
  obtain ⟨init3, cats3, hob, hfacts⟩ := wtpi_eq_some h
  subst hfacts
  have hinv := objLoop_hand _ _ _ _ _ _ _ hob
    (Or.inl ⟨count_HE_preFacts w, countP_isHolding_preFacts w _⟩)
  rcases hinv with ⟨h1, h2⟩ | ⟨h1, h2⟩
  · left
    constructor
    · rw [List.count_append, count_HE_typeFacts, h1]
    · rw [List.countP_append, countP_isHolding_typeFacts, h2]
  · right
    constructor
    · rw [List.count_append, count_HE_typeFacts, h1]
    · rw [List.countP_append, countP_isHolding_typeFacts, h2]

/-- Witness for C1 at the concrete `demoWorld`. -/
theorem C1_witness :
    (((world_to_pddlstream_init demoWorld).getD []).count
        (handEmptyFact "bot") = 1 ∧
      ((world_to_pddlstream_init demoWorld).getD []).countP
        (isHolding "bot") = 0) ∨
    (((world_to_pddlstream_init demoWorld).getD []).count
        (handEmptyFact "bot") = 0 ∧
      ((world_to_pddlstream_init demoWorld).getD []).countP
        (isHolding "bot") = 1) :=
  C1_hand_state_exclusive demoWorld
    ((world_to_pddlstream_init demoWorld).getD []) (by decide)

/-- Counterexample for C4: in `ghostWorld` the robot's
manipulated-object reference (`ghost`) points to an object absent from
the world's object collection, yet the encoder emits no `Holding` fact
at all and leaves `HandEmpty(robot)` in place — the claim's promised
`Holding` emission and `HandEmpty` retraction do not happen. -/
theorem C4_counterexample :
    (world_to_pddlstream_init ghostWorld).isSome = true ∧
    handEmptyFact "bot" ∈ (world_to_pddlstream_init ghostWorld).getD [] ∧
    ((world_to_pddlstream_init ghostWorld).getD []).countP
      (isHolding "bot") = 0 := by decide

/-- C4 (amended): when the robot's manipulated-object reference points
to an object not present in the world's object collection, the
reference is silently ignored: no `Holding` fact is emitted and the
tentative `HandEmpty(robot)` fact is not retracted. -/
theorem C4_dangling_reference_ignored (w : World) (m : String)
    (hm : w.robot.manipulated_object = some m)
    (hdangling : ∀ o ∈ w.objects, o.name ≠ m) :
    ∃ facts, world_to_pddlstream_init w = some facts ∧
      handEmptyFact w.robot.name ∈ facts ∧
      facts.countP (isHolding w.robot.name) = 0 := by
  have hnm : ∀ o ∈ w.objects, w.robot.manipulated_object ≠ some o.name := by
    intro o ho heq
    rw [hm] at heq
    injection heq with heq
    exact hdangling o ho heq.symm
  have hloop := objLoop_no_match w.robot.name w.robot.manipulated_object
    w.objects (preFacts w) [] hnm
  refine ⟨(preFacts w ++ objFacts w.objects) ++
      typeFacts ((w.objects.map Obj.category).foldl insertIfAbsent []), ?_, ?_, ?_⟩
  · unfold world_to_pddlstream_init
    rw [hloop]
  · refine List.mem_append_left _ (List.mem_append_left _ ?_)
    simp [preFacts, robotFacts, handEmptyFact]
  · rw [List.countP_append, List.countP_append]
    rw [countP_isHolding_preFacts]
    rw [List.countP_eq_zero.mpr (by
      intro f hf
      obtain ⟨o, _, hc | hc | hc⟩ := mem_objFacts.mp hf <;> subst hc <;>
        simp [isHolding_objF, isHolding_isF, isHolding_atF])]
    rw [countP_isHolding_typeFacts]

/-- Witness for the amended C4 at the concrete `ghostWorld`. -/
theorem C4_witness :
    ∃ facts, world_to_pddlstream_init ghostWorld = some facts ∧
      handEmptyFact ghostWorld.robot.name ∈ facts ∧
      facts.countP (isHolding ghostWorld.robot.name) = 0 :=
  C4_dangling_reference_ignored ghostWorld "ghost" rfl (by decide)

/-- Counterexample for C5: in `lostWorld` the robot has no recorded
location and the pose lookup resolves nothing, yet the output still
contains an `At` fact for the robot — `("At", robot, None)` — instead
of omitting the robot's `At` fact entirely. -/
theorem C5_counterexample :
    (world_to_pddlstream_init lostWorld).isSome = true ∧
    [PArg.S "At", PArg.S "bot", PArg.N] ∈
      (world_to_pddlstream_init lostWorld).getD [] := by decide

/-- C5 (amended): when the robot has no recorded location and the
pose-based lookup also yields nothing, the encoder does not raise on
that account but emits `("At", robot, None)` — an `At` fact whose
location argument is Python `None` — rather than omitting the fact. -/
theorem C5_at_none_emitted (w : World) (facts : List PFact)
    (hloc : w.robot.location = none)
    (hlookup : w.get_location_from_pose w.robot.pose = none)
    (h : world_to_pddlstream_init w = some facts) :
    [PArg.S "At", PArg.S w.robot.name, PArg.N] ∈ facts := by
  obtain ⟨init3, cats3, hob, hfacts⟩ := wtpi_eq_some h
  subst hfacts
  refine List.mem_append_left _ ?_
  refine objLoop_mem _ _ _ _ _ _ _ hob _ (by simp [handEmptyFact]) ?_
  have hil : initLoc w = none := by
    rw [initLoc, hloc, hlookup]
  refine List.mem_append_left _ (List.mem_append_left _
    (List.mem_append_left _ ?_))
  simp [robotFacts, hil, optS]

/-- Witness for the amended C5 at the concrete `lostWorld`. -/
theorem C5_witness :
    [PArg.S "At", PArg.S lostWorld.robot.name, PArg.N] ∈
      (world_to_pddlstream_init lostWorld).getD [] :=
  C5_at_none_emitted lostWorld
    ((world_to_pddlstream_init lostWorld).getD []) rfl rfl (by decide)

/-- Counterexample for C6: in `demoWorld` the robot pose fact is the
2-tuple `("Pose", pose)` — predicate arity 1 — and no 3-tuple
`Pose`-headed fact (arity 2, as the claim requires) appears at all. -/
theorem C6_counterexample :
    (world_to_pddlstream_init demoWorld).isSome = true ∧
    ((world_to_pddlstream_init demoWorld).getD []).countP
      (fun f => headIs "Pose" f && f.length == 3) = 0 ∧
    ((world_to_pddlstream_init demoWorld).getD []).countP
      (fun f => headIs "Pose" f) = 1 := by decide

/-- C6 (amended): the robot pose fact is emitted as the unary predicate
`Pose(pose)` — the output contains the 2-tuple `("Pose", pose)` and
every `Pose`-headed fact of the output equals it. -/
theorem C6_pose_unary (w : World) (facts : List PFact)
    (h : world_to_pddlstream_init w = some facts) :
    [PArg.S "Pose", PArg.P w.robot.pose] ∈ facts ∧
    ∀ f ∈ facts, headIs "Pose" f = true →
      f = [PArg.S "Pose", PArg.P w.robot.pose] := by
  obtain ⟨init3, cats3, hob, hfacts⟩ := wtpi_eq_some h
  subst hfacts
  constructor
  · refine List.mem_append_left _ ?_
    refine objLoop_mem _ _ _ _ _ _ _ hob _ (by simp [handEmptyFact]) ?_
    refine List.mem_append_left _ (List.mem_append_left _
      (List.mem_append_left _ ?_))
    simp [robotFacts]
  · intro f hf hhead
    rcases List.mem_append.mp hf with hf | hf
    · rcases objLoop_mem_out _ _ _ _ _ _ _ hob f hf with hin | ⟨o, _, hc⟩
      · rw [preFacts] at hin
        rcases List.mem_append.mp hin with hin | hin
        · rcases List.mem_append.mp hin with hin | hin
          · rcases List.mem_append.mp hin with hin | hin
            · rw [robotFacts] at hin
              fin_cases hin
              · simp [headIs] at hhead
              · simp [headIs] at hhead
              · simp [headIs] at hhead
              · rfl
              · simp [headIs] at hhead
            · obtain ⟨rm, _, hc | hc⟩ := mem_roomFacts.mp hin <;> subst hc <;>
                simp [headIs] at hhead
          · obtain ⟨loc, _, sp, _, hc | hc | hc⟩ := mem_locFacts.mp hin <;>
              subst hc <;> simp [headIs] at hhead
        · obtain ⟨c, _, hc⟩ := mem_typeFacts.mp hin
          subst hc
          simp [headIs] at hhead
      · rcases hc with hc | hc | hc | hc <;> subst hc
        · simp [headIs, objF] at hhead
        · simp [headIs, isF] at hhead
        · simp [headIs, atF] at hhead
        · simp [headIs, holdF] at hhead
    · obtain ⟨c, _, hc⟩ := mem_typeFacts.mp hf
      subst hc
      simp [headIs] at hhead

/-- Witness for the amended C6 at the concrete `demoWorld`. -/
theorem C6_witness :
    [PArg.S "Pose", PArg.P demoWorld.robot.pose] ∈
        (world_to_pddlstream_init demoWorld).getD [] ∧
    ∀ f ∈ (world_to_pddlstream_init demoWorld).getD [],
      headIs "Pose" f = true →
      f = [PArg.S "Pose", PArg.P demoWorld.robot.pose] :=
  C6_pose_unary demoWorld
    ((world_to_pddlstream_init demoWorld).getD []) (by decide)

/-- Counterexample for C7: in `sharedCatWorld` the category `shared`
appears among the world's locations, yet the output contains two
`Type(shared)` facts (one from the location pass, one from the object
pass), not exactly one. -/
theorem C7_counterexample :
    (world_to_pddlstream_init sharedCatWorld).isSome = true ∧
    ((world_to_pddlstream_init sharedCatWorld).getD []).count
      [PArg.S "Type", PArg.S "shared"] = 2 := by decide

/-- C7 (amended): a category appearing among the world's locations
yields exactly one `Type(category)` fact from the locations pass,
however often it recurs among locations; but when the same category
also appears among the world's objects a second `Type(category)` fact
is emitted by the objects pass, so the total is two in that case and
one otherwise. -/
theorem C7_type_fact_count (w : World) (facts : List PFact) (c : String)
    (h : world_to_pddlstream_init w = some facts)
    (hc : c ∈ w.locations.map Loc.category) :
    facts.count [PArg.S "Type", PArg.S c] =
      if c ∈ w.objects.map Obj.category then 2 else 1 := by
  obtain ⟨init3, cats3, hob, hfacts⟩ := wtpi_eq_some h
  subst hfacts
  have hcats3 : cats3 = (w.objects.map Obj.category).foldl insertIfAbsent [] :=
    objLoop_cats _ _ _ _ _ _ _ hob
  have hpre : init3.count [PArg.S "Type", PArg.S c] =
      (preFacts w).count [PArg.S "Type", PArg.S c] := by
    refine objLoop_count_eq _ _ _ _ _ _ _ hob _ ?_ ?_ ?_ ?_ ?_
    · intro o
      simp [objF]
    · intro o
      simp [isF]
    · intro o
      simp [atF]
    · intro o
      simp [holdF]
    · simp [handEmptyFact]
  have hpre2 : (preFacts w).count [PArg.S "Type", PArg.S c] = 1 := by
    rw [preFacts, List.count_append, List.count_append, List.count_append]
    rw [List.count_eq_zero.mpr (by
      simp [robotFacts] : ([PArg.S "Type", PArg.S c] : PFact) ∉ robotFacts w)]
    rw [List.count_eq_zero.mpr (by
      rw [mem_roomFacts]
      rintro ⟨rm, _, hx | hx⟩ <;> simp at hx)]
    rw [List.count_eq_zero.mpr (by
      rw [mem_locFacts]
      rintro ⟨loc, _, sp, _, hx | hx | hx⟩ <;> simp at hx)]
    rw [count_typeFacts (dedupCats_nodup _)]
    rw [if_pos (dedupCats_mem.mpr hc)]
  have hcnt3 : (typeFacts cats3).count [PArg.S "Type", PArg.S c] =
      if c ∈ w.objects.map Obj.category then 1 else 0 := by
    have : cats3 = dedupCats (w.objects.map Obj.category) := hcats3
    rw [this, count_typeFacts (dedupCats_nodup _)]
    by_cases hoc : c ∈ w.objects.map Obj.category
    · rw [if_pos (dedupCats_mem.mpr hoc), if_pos hoc]
    · rw [if_neg (fun hx => hoc (dedupCats_mem.mp hx)), if_neg hoc]
  rw [List.count_append, hpre, hpre2, hcnt3]
  by_cases hoc : c ∈ w.objects.map Obj.category
  · rw [if_pos hoc, if_pos hoc]
  · rw [if_neg hoc, if_neg hoc]

/-- Witness for the amended C7 at the concrete `sharedCatWorld`. -/
theorem C7_witness :
    ((world_to_pddlstream_init sharedCatWorld).getD []).count
      [PArg.S "Type", PArg.S "shared"] =
      if "shared" ∈ sharedCatWorld.objects.map Obj.category then 2 else 1 :=
  C7_type_fact_count sharedCatWorld
    ((world_to_pddlstream_init sharedCatWorld).getD []) "shared"
    (by decide) (by decide)

lemma objFacts_append (la lb : List Obj) :
    objFacts (la ++ lb) = objFacts la ++ objFacts lb := by
  simp [objFacts]

lemma objFacts_cons (o : Obj) (l : List Obj) :
    objFacts (o :: l) = objF o :: isF o :: atF o :: objFacts l := by
  simp [objFacts]

lemma HE_not_mem_objFacts (r : String) (l : List Obj) :
    handEmptyFact r ∉ objFacts l := by
  rw [mem_objFacts]
  rintro ⟨o, _, h | h | h⟩
  · exact HE_ne_objF r o h
  · exact HE_ne_isF r o h
  · exact HE_ne_atF r o h

lemma wtpi_of_objLoop {w : World} {init3 : List PFact} {cats3 : List String}
    (h : objLoop w.robot.name w.robot.manipulated_object w.objects
      (preFacts w) [] = some (init3, cats3)) :
    world_to_pddlstream_init w = some (init3 ++ typeFacts cats3) := by
  unfold world_to_pddlstream_init
  rw [h]

/-- C9 (amended): on two logically-identical worlds differing only in
the robot's manipulated-object reference (unset versus an object `O`
present once in the collection), the two encoder outputs differ in
exactly three facts: the `HandEmpty(robot)`/`Holding(robot, O)` pair
toggles and the `At(O, parent)` fact for `O` disappears; nothing else
changes.  The conclusion is the exact multiset equation, stated via
counts. -/
theorem C9_toggle_effect (w : World) (O : Obj) (l1 l2 : List Obj)
    (hobjs : w.objects = l1 ++ O :: l2)
    (h1 : ∀ o ∈ l1, o.name ≠ O.name) (h2 : ∀ o ∈ l2, o.name ≠ O.name) :
    ∃ fa fb,
      world_to_pddlstream_init
        { w with robot :=
            { w.robot with manipulated_object := none } } = some fa ∧
      world_to_pddlstream_init
        { w with robot :=
            { w.robot with manipulated_object := some O.name } } = some fb ∧
      ∀ f : PFact,
        fb.count f +
            ([handEmptyFact w.robot.name, atF O] : List PFact).count f =
          fa.count f + ([holdF w.robot.name O] : List PFact).count f := by
  have hpreHE : handEmptyFact w.robot.name ∈ preFacts w := by
    refine List.mem_append_left _ (List.mem_append_left _
      (List.mem_append_left _ ?_))
    simp [robotFacts, handEmptyFact]
  have hA : objLoop w.robot.name none w.objects (preFacts w) [] =
      some (preFacts w ++ objFacts w.objects,
        (w.objects.map Obj.category).foldl insertIfAbsent []) :=
    objLoop_no_match _ _ _ _ _ (by intro o _; simp)
  have hB1 : objLoop w.robot.name (some O.name) l1 (preFacts w) [] =
      some (preFacts w ++ objFacts l1,
        (l1.map Obj.category).foldl insertIfAbsent []) :=
    objLoop_no_match _ _ _ _ _ (by
      intro o ho heq
      injection heq with heq
      exact h1 o ho heq.symm)
  have hmem2 : handEmptyFact w.robot.name ∈
      (preFacts w ++ objFacts l1) ++ [objF O, isF O] :=
    List.mem_append_left _ (List.mem_append_left _ hpreHE)
  have hB2 : objLoop w.robot.name (some O.name) (O :: l2)
      (preFacts w ++ objFacts l1)
      ((l1.map Obj.category).foldl insertIfAbsent []) =
      some ((((preFacts w ++ objFacts l1) ++ [objF O, isF O]).erase
            (handEmptyFact w.robot.name) ++ [holdF w.robot.name O])
          ++ objFacts l2,
        (l2.map Obj.category).foldl insertIfAbsent
          (insertIfAbsent ((l1.map Obj.category).foldl insertIfAbsent [])
            O.category)) := by
    rw [objLoop_cons_eq, if_pos rfl, if_pos hmem2]
    exact objLoop_no_match _ _ _ _ _ (by
      intro o ho heq
      injection heq with heq
      exact h2 o ho heq.symm)
  have hcats : (l2.map Obj.category).foldl insertIfAbsent
      (insertIfAbsent ((l1.map Obj.category).foldl insertIfAbsent [])
        O.category) =
      (w.objects.map Obj.category).foldl insertIfAbsent [] := by
    rw [hobjs]
    simp [List.foldl_append]
  have hBfull : objLoop w.robot.name (some O.name) w.objects
      (preFacts w) [] =
      some ((((preFacts w ++ objFacts l1) ++ [objF O, isF O]).erase
            (handEmptyFact w.robot.name) ++ [holdF w.robot.name O])
          ++ objFacts l2,
        (w.objects.map Obj.category).foldl insertIfAbsent []) := by
    rw [hobjs, objLoop_append, hB1, Option.some_bind, hB2, hcats, hobjs]
  refine ⟨(preFacts w ++ objFacts w.objects) ++
      typeFacts ((w.objects.map Obj.category).foldl insertIfAbsent []),
    ((((preFacts w ++ objFacts l1) ++ [objF O, isF O]).erase
          (handEmptyFact w.robot.name) ++ [holdF w.robot.name O])
        ++ objFacts l2) ++
      typeFacts ((w.objects.map Obj.category).foldl insertIfAbsent []),
    ?_, ?_, ?_⟩
  · exact wtpi_of_objLoop hA
  · exact wtpi_of_objLoop hBfull
  · intro f
    rw [hobjs, objFacts_append, objFacts_cons]
    have z1 : (objFacts l1).count (handEmptyFact w.robot.name) = 0 :=
      List.count_eq_zero.mpr (HE_not_mem_objFacts _ _)
    have z2 : (objFacts l2).count (handEmptyFact w.robot.name) = 0 :=
      List.count_eq_zero.mpr (HE_not_mem_objFacts _ _)
    have zpre := count_HE_preFacts w
    by_cases hf : f = handEmptyFact w.robot.name
    · subst hf
      simp only [List.count_append, List.count_erase_self, List.count_cons,
        List.count_nil]
      simp [HE_ne_objF, HE_ne_isF, HE_ne_atF, HE_ne_holdF]
      omega
    · have hfb2 : (f == handEmptyFact w.robot.name) = false := by
        simp [hf]
      simp only [List.count_append]
      rw [List.count_erase_of_ne hf]
      simp only [List.count_append, List.count_cons, List.count_nil, hfb2]
      have hfb3 : handEmptyFact w.robot.name ≠ f := fun h => hf h.symm
      simp [hfb3]
      omega

/-- Counterexample for C9: toggling the manipulated-object reference
between `demoWorld` (unset) and `holdingWorld` (referencing the apple)
changes more than the `HandEmpty`/`Holding` pair: the fact
`At(apple, table0)` is present in the first output and absent from the
second. -/
theorem C9_counterexample :
    (world_to_pddlstream_init demoWorld).isSome = true ∧
    (world_to_pddlstream_init holdingWorld).isSome = true ∧
    atF appleObj ∈ (world_to_pddlstream_init demoWorld).getD [] ∧
    atF appleObj ∉ (world_to_pddlstream_init holdingWorld).getD [] ∧
    handEmptyFact "bot" ∈ (world_to_pddlstream_init demoWorld).getD [] ∧
    handEmptyFact "bot" ∉ (world_to_pddlstream_init holdingWorld).getD [] ∧
    holdF "bot" appleObj ∈
      (world_to_pddlstream_init holdingWorld).getD [] := by decide

/-- Witness for the amended C9 at the concrete `demoWorld` toggled on
its single object. -/
theorem C9_witness :
    ∃ fa fb,
      world_to_pddlstream_init
        { demoWorld with robot :=
            { demoWorld.robot with manipulated_object := none } } = some fa ∧
      world_to_pddlstream_init
        { demoWorld with robot :=
            { demoWorld.robot with
                manipulated_object := some appleObj.name } } = some fb ∧
      ∀ f : PFact,
        fb.count f +
            ([handEmptyFact demoWorld.robot.name,
              atF appleObj] : List PFact).count f =
          fa.count f +
            ([holdF demoWorld.robot.name appleObj] : List PFact).count f :=
  C9_toggle_effect demoWorld appleObj [] [] rfl (by simp) (by simp)

lemma getArg_ok {l : List AArg} {i : Nat} {a : AArg} :
    getArg l i = Except.ok a ↔ l.get? i = some a := by
  unfold getArg
  cases h : l.get? i <;> simp

lemma getArg_ok_of_lt {l : List AArg} {i : Nat} (h : i < l.length) :
    ∃ x, getArg l i = Except.ok x := by
  unfold getArg
  rw [List.get?_eq_get h]
  exact ⟨_, rfl⟩

lemma getArg_err_of_le {l : List AArg} {i : Nat} (h : l.length ≤ i) :
    getArg l i = Except.error DecodeErr.indexError := by
  unfold getArg
  rw [List.get?_eq_none.mpr h]

lemma decodeActions_length :
    ∀ {l : List PddlAction} {tas : List TaskAction},
    decodeActions l = Except.ok tas → tas.length = l.length := by
  intro l
  induction l with
  | nil =>
    intro tas h
    unfold decodeActions at h
    injection h with h
    rw [← h]
    rfl
  | cons a rest ih =>
    intro tas h
    unfold decodeActions at h
    cases hda : decodeAction a with
    | error e => rw [hda] at h; cases h
    | ok ta =>
      rw [hda] at h
      cases hdr : decodeActions rest with
      | error e => rw [hdr] at h; cases h
      | ok tas2 =>
        rw [hdr] at h
        injection h with h
        rw [← h]
        simp [ih hdr]

lemma decodeActions_get :
    ∀ {l : List PddlAction} {tas : List TaskAction},
    decodeActions l = Except.ok tas →
    ∀ (i : Nat) (a : PddlAction) (ta : TaskAction),
    l.get? i = some a → tas.get? i = some ta →
    decodeAction a = Except.ok ta := by
  intro l
  induction l with
  | nil =>
    intro tas h i a ta hga _
    simp at hga
  | cons b rest ih =>
    intro tas h i a ta hga hgt
    unfold decodeActions at h
    cases hda : decodeAction b with
    | error e => rw [hda] at h; cases h
    | ok tb =>
      rw [hda] at h
      cases hdr : decodeActions rest with
      | error e => rw [hdr] at h; cases h
      | ok tas2 =>
        rw [hdr] at h
        injection h with h
        subst h
        cases i with
        | zero =>
          rw [List.get?_cons_zero] at hga hgt
          injection hga with hga
          injection hgt with hgt
          rw [hga, hgt] at hda
          exact hda
        | succ n =>
          rw [List.get?_cons_succ] at hga hgt
          exact ih hdr n a ta hga hgt

lemma decodeActions_total :
    ∀ {l : List PddlAction},
    (∀ a ∈ l, ∃ ta, decodeAction a = Except.ok ta) →
    ∃ tas, decodeActions l = Except.ok tas := by
  intro l
  induction l with
  | nil => exact fun _ => ⟨[], rfl⟩
  | cons a rest ih =>
    intro h
    obtain ⟨ta, hta⟩ := h a (by simp)
    obtain ⟨tas, htas⟩ := ih (fun b hb => h b (by simp [hb]))
    refine ⟨ta :: tas, ?_⟩
    unfold decodeActions
    rw [hta, htas]

lemma decodeActions_err :
    ∀ {l : List PddlAction} {a : PddlAction} {e : DecodeErr},
    a ∈ l → decodeAction a = Except.error e →
    decodeActions l = Except.error DecodeErr.indexError := by
  intro l
  induction l with
  | nil =>
    intro a e ha _
    simp at ha
  | cons b rest ih =>
    intro a e ha hae
    unfold decodeActions
    cases hb : decodeAction b with
    | error e2 => cases e2; rfl
    | ok tb =>
      rcases List.mem_cons.mp ha with rfl | ha2
      · rw [hae] at hb; cases hb
      · rw [ih ha2 hae]

lemma decodeAction_navigate {a : PddlAction} {ta : TaskAction}
    (hn : a.name = "navigate") (h : decodeAction a = Except.ok ta) :
    ta.type = a.name ∧ ta.source_location = a.args.get? 1 ∧
    ta.target_location = a.args.get? 2 ∧
    ta.path = (a.args.drop 3).foldl
      (fun acc arg => if arg.isPath then some arg else acc) none ∧
    ta.object = none ∧ ta.pose = none := by
  unfold decodeAction at h
  rw [if_pos hn] at h
  cases h1 : getArg a.args 1 with
  | error e => rw [h1] at h; cases h
  | ok src =>
    rw [h1] at h
    cases h2 : getArg a.args 2 with
    | error e => rw [h2] at h; cases h
    | ok tgt =>
      rw [h2] at h
      injection h with h
      rw [← h]
      refine ⟨rfl, ?_, ?_, rfl, rfl, rfl⟩
      · rw [getArg_ok.mp h1]
      · rw [getArg_ok.mp h2]

lemma decodeAction_pickplace {a : PddlAction} {ta : TaskAction}
    (hn : a.name = "pick" ∨ a.name = "place")
    (hnav : a.name ≠ "navigate")
    (h : decodeAction a = Except.ok ta) :
    ta.type = a.name ∧ ta.object = a.args.get? 1 ∧
    ta.target_location = a.args.get? 2 ∧
    ta.pose = (if 3 < a.args.length then a.args.get? 3 else none) ∧
    ta.source_location = none ∧ ta.path = none := by
  unfold decodeAction at h
  rw [if_neg hnav, if_pos hn] at h
  cases h1 : getArg a.args 1 with
  | error e => rw [h1] at h; cases h
  | ok ob =>
    rw [h1] at h
    cases h2 : getArg a.args 2 with
    | error e => rw [h2] at h; cases h
    | ok tgt =>
      rw [h2] at h
      injection h with h
      rw [← h]
      refine ⟨rfl, ?_, ?_, rfl, rfl, rfl⟩
      · rw [getArg_ok.mp h1]
      · rw [getArg_ok.mp h2]

lemma decodeAction_other {a : PddlAction}
    (h1 : a.name ≠ "navigate") (h2 : a.name ≠ "pick")
    (h3 : a.name ≠ "place") :
    decodeAction a = Except.ok
      { type := a.name, source_location := none, target_location := none,
        object := none, pose := none, path := none } := by
  unfold decodeAction
  rw [if_neg h1, if_neg (by simp [h2, h3])]

lemma decodeAction_total {a : PddlAction}
    (hlen : (a.name = "navigate" ∨ a.name = "pick" ∨ a.name = "place") →
      3 ≤ a.args.length) :
    ∃ ta, decodeAction a = Except.ok ta := by
  by_cases hn : a.name = "navigate"
  · have h3 := hlen (Or.inl hn)
    obtain ⟨x, hx⟩ := getArg_ok_of_lt (show 1 < a.args.length by omega)
    obtain ⟨y, hy⟩ := getArg_ok_of_lt (show 2 < a.args.length by omega)
    refine ⟨{ type := a.name, source_location := some x,
              target_location := some y, object := none, pose := none,
              path := (a.args.drop 3).foldl
                (fun acc arg => if arg.isPath then some arg else acc)
                none }, ?_⟩
    unfold decodeAction
    rw [if_pos hn, hx, hy]
  · by_cases hp : a.name = "pick" ∨ a.name = "place"
    · have h3 := hlen (Or.inr hp)
      obtain ⟨x, hx⟩ := getArg_ok_of_lt (show 1 < a.args.length by omega)
      obtain ⟨y, hy⟩ := getArg_ok_of_lt (show 2 < a.args.length by omega)
      refine ⟨{ type := a.name, object := some x, target_location := some y,
                pose := if 3 < a.args.length then a.args.get? 3 else none,
                source_location := none, path := none }, ?_⟩
      unfold decodeAction
      rw [if_neg hn, if_pos hp, hx, hy]
    · push_neg at hp
      exact ⟨_, decodeAction_other hn hp.1 hp.2⟩

lemma decodeAction_err {a : PddlAction}
    (hrec : a.name = "navigate" ∨ a.name = "pick" ∨ a.name = "place")
    (hlen : a.args.length < 3) :
    decodeAction a = Except.error DecodeErr.indexError := by
  have h2 : getArg a.args 2 = Except.error DecodeErr.indexError :=
    getArg_err_of_le (by omega)
  rcases hrec with hn | hp
  · unfold decodeAction
    rw [if_pos hn]
    cases h1 : getArg a.args 1 with
    | error e => cases e; rfl
    | ok x => rw [h2]
  · unfold decodeAction
    have hn : a.name ≠ "navigate" := by
      rcases hp with hp | hp <;> simp [hp]
    rw [if_neg hn, if_pos hp]
    cases h1 : getArg a.args 1 with
    | error e => cases e; rfl
    | ok x => rw [h2]

lemma foldl_path_none :
    ∀ {l : List AArg}, (∀ p ∈ l, p.isPath = false) →
    ∀ acc : Option AArg,
    l.foldl (fun acc arg => if arg.isPath then some arg else acc) acc = acc := by
  intro l
  induction l with
  | nil => intro _ acc; rfl
  | cons a rest ih =>
    intro h acc
    rw [List.foldl_cons, if_neg (by simp [h a (by simp)])]
    exact ih (fun p hp => h p (by simp [hp])) acc

lemma foldl_path_some :
    ∀ {l : List AArg}, (∃ p ∈ l, p.isPath = true) →
    ∀ acc : Option AArg,
    ∃ p ∈ l, p.isPath = true ∧
      l.foldl (fun acc arg => if arg.isPath then some arg else acc) acc
        = some p := by
  intro l
  induction l with
  | nil =>
    rintro ⟨p, hp, _⟩
    simp at hp
  | cons a rest ih =>
    intro h acc
    by_cases hrest : ∃ p ∈ rest, p.isPath = true
    · obtain ⟨p, hp, hpp, hfold⟩ := ih hrest
        (if a.isPath = true then some a else acc)
      exact ⟨p, by simp [hp], hpp, by rw [List.foldl_cons]; exact hfold⟩
    · have hap : a.isPath = true := by
        obtain ⟨p, hp, hpp⟩ := h
        rcases List.mem_cons.mp hp with rfl | hp2
        · exact hpp
        · exact absurd ⟨p, hp2, hpp⟩ hrest
      push_neg at hrest
      refine ⟨a, by simp, hap, ?_⟩
      rw [List.foldl_cons, if_pos hap]
      exact foldl_path_none (by
        intro p hp
        exact Bool.eq_false_iff.mpr (fun ht => (hrest p hp ht).elim)) (some a)

lemma pstp_some {s : Solution} {acts : List PddlAction}
    (hs : s.plan = some acts) :
    pddlstream_solution_to_plan s =
      if acts.length = 0 then Except.ok none
      else
        match decodeActions acts with
        | Except.error e => Except.error e
        | Except.ok tas =>
          Except.ok (some { actions := tas, total_cost := some s.total_cost }) := by
  unfold pddlstream_solution_to_plan
  rw [hs]

lemma solution_ok_some {s : Solution} {acts : List PddlAction}
    {plan : TaskPlan} (hs : s.plan = some acts)
    (hok : pddlstream_solution_to_plan s = Except.ok (some plan)) :
    ∃ tas, decodeActions acts = Except.ok tas ∧
      plan = { actions := tas, total_cost := some s.total_cost } := by
  rw [pstp_some hs] at hok
  by_cases h0 : acts.length = 0
  · rw [if_pos h0] at hok
    injection hok with hok
    cases hok
  · rw [if_neg h0] at hok
    cases hda : decodeActions acts with
    | error e => rw [hda] at hok; cases hok
    | ok tas =>
      rw [hda] at hok
      injection hok with hok
      injection hok with hok
      exact ⟨tas, rfl, hok.symm⟩

/-- C2: for every action of a non-empty planner solution whose decode
returns a plan, decoding is positional: a navigate action takes its
source location from positional argument 2 and its target from
argument 3, attaching as path a remaining `Path`-typed argument when
one exists and leaving the path unset otherwise; a pick or place
action takes its object from argument 2, its target location from
argument 3, and its pose from argument 4 exactly when a fourth
argument is present; and the returned plan's total cost equals the
solution's reported total cost verbatim. -/
theorem C2_positional_decode (s : Solution) (acts : List PddlAction)
    (plan : TaskPlan) (hs : s.plan = some acts)
    (hok : pddlstream_solution_to_plan s = Except.ok (some plan)) :
    plan.total_cost = some s.total_cost ∧
    plan.actions.length = acts.length ∧
    ∀ i a ta, acts.get? i = some a → plan.actions.get? i = some ta →
      (a.name = "navigate" →
        ta.type = "navigate" ∧
        ta.source_location = a.args.get? 1 ∧
        ta.target_location = a.args.get? 2 ∧
        ((∀ p ∈ a.args.drop 3, p.isPath = false) → ta.path = none) ∧
        ((∃ p ∈ a.args.drop 3, p.isPath = true) →
          ∃ p ∈ a.args.drop 3, p.isPath = true ∧ ta.path = some p)) ∧
      ((a.name = "pick" ∨ a.name = "place") →
        ta.type = a.name ∧
        ta.object = a.args.get? 1 ∧
        ta.target_location = a.args.get? 2 ∧
        (3 < a.args.length → ta.pose = a.args.get? 3) ∧
        (a.args.length ≤ 3 → ta.pose = none)) := by
  obtain ⟨tas, hda, hplan⟩ := solution_ok_some hs hok
  subst hplan
  refine ⟨rfl, decodeActions_length hda, ?_⟩
  intro i a ta hga hgt
  have hd := decodeActions_get hda i a ta hga hgt
  constructor
  · intro hnav
    obtain ⟨ht, hsrc, htgt, hpath, _, _⟩ := decodeAction_navigate hnav hd
    refine ⟨by rw [ht, hnav], hsrc, htgt, ?_, ?_⟩
    · intro hnone
      rw [hpath]
      exact foldl_path_none hnone none
    · intro hsome
      obtain ⟨p, hp, hpp, hfold⟩ := foldl_path_some hsome none
      exact ⟨p, hp, hpp, by rw [hpath]; exact hfold⟩
  · intro hpick
    have hnav : a.name ≠ "navigate" := by
      rcases hpick with h | h <;> simp [h]
    obtain ⟨ht, hobj, htgt, hpose, _, _⟩ := decodeAction_pickplace hpick hnav hd
    refine ⟨ht, hobj, htgt, ?_, ?_⟩
    · intro hlt
      rw [hpose, if_pos hlt]
    · intro hle
      rw [hpose, if_neg (by omega)]

/-- Witness for C2 at the scenario-B solution: one navigate action with
args `(Bot, S, Kitchen, path_value)` and total cost 45. -/
theorem C2_witness :
    navPlanDemo.total_cost = some navSolutionDemo.total_cost ∧
    navPlanDemo.actions.length = 1 ∧
    ∃ ta, navPlanDemo.actions.get? 0 = some ta ∧
      ta.type = "navigate" ∧
      ta.source_location = some (AArg.ent "S") ∧
      ta.target_location = some (AArg.ent "Kitchen") ∧
      ta.path = some (AArg.path 9) := by
  have h := C2_positional_decode navSolutionDemo [navActDemo] navPlanDemo
    rfl rfl
  have hnav := (h.2.2 0 navActDemo taNavDemo rfl rfl).1 rfl
  exact ⟨h.1, h.2.1, taNavDemo, rfl, hnav.1, hnav.2.1, hnav.2.2.1, rfl⟩

/-- C3: the decoder returns the no-plan sentinel (Python `None`; here
`Except.ok none` — not an empty `TaskPlan`, not an exception) whenever
the solution's action sequence is absent or has zero length. -/
theorem C3_no_plan_sentinel (s : Solution)
    (h : s.plan = none ∨ s.plan = some []) :
    pddlstream_solution_to_plan s = Except.ok none := by
  rcases h with h | h
  · unfold pddlstream_solution_to_plan
    rw [h]
  · unfold pddlstream_solution_to_plan
    rw [h]
    rfl

/-- Witness for C3 at the concrete solution `(None, 0, {})`. -/
theorem C3_witness :
    pddlstream_solution_to_plan emptySolution = Except.ok none :=
  C3_no_plan_sentinel emptySolution (Or.inl rfl)

/-- C8 (amended): for every non-empty planner solution whose
recognized (navigate/pick/place) actions each carry at least the 3
positional arguments their decode reads — the precondition under which
the decoder is total, cf. C10 — the decoder returns a plan with
exactly one `TaskAction` per
planner action, in planner-solution order, and an action whose tag is
not navigate, pick, or place is preserved with only its name populated
and every type-specific field unset, rather than aborting the decode
of the whole plan. -/
theorem C8_unknown_tag_preserved (s : Solution) (acts : List PddlAction)
    (hs : s.plan = some acts) (hne : acts ≠ [])
    (hargs : ∀ a ∈ acts,
      (a.name = "navigate" ∨ a.name = "pick" ∨ a.name = "place") →
      3 ≤ a.args.length) :
    ∃ plan, pddlstream_solution_to_plan s = Except.ok (some plan) ∧
      plan.actions.length = acts.length ∧
      ∀ i a ta, acts.get? i = some a → plan.actions.get? i = some ta →
        a.name ≠ "navigate" → a.name ≠ "pick" → a.name ≠ "place" →
        ta = { type := a.name, source_location := none,
               target_location := none, object := none, pose := none,
               path := none } := by
  obtain ⟨tas, htas⟩ :=
    decodeActions_total (fun a ha => decodeAction_total (hargs a ha))
  refine ⟨{ actions := tas, total_cost := some s.total_cost }, ?_,
    decodeActions_length htas, ?_⟩
  · rw [pstp_some hs, if_neg (fun h0 => hne (List.length_eq_zero.mp h0)),
      htas]
  · intro i a ta hga hgt h1 h2 h3
    have hd := decodeActions_get htas i a ta hga hgt
    rw [decodeAction_other h1 h2 h3] at hd
    injection hd with hd
    exact hd.symm

/-- Witness for C8 at a solution holding one action with the
unrecognized tag `dance`. -/
theorem C8_witness :
    ∃ plan, pddlstream_solution_to_plan danceSolution =
        Except.ok (some plan) ∧
      plan.actions.length = [danceAct].length ∧
      ∀ i a ta, [danceAct].get? i = some a →
        plan.actions.get? i = some ta →
        a.name ≠ "navigate" → a.name ≠ "pick" → a.name ≠ "place" →
        ta = { type := a.name, source_location := none,
               target_location := none, object := none, pose := none,
               path := none } :=
  C8_unknown_tag_preserved danceSolution [danceAct] rfl (by decide)
    (by decide)

/-- C10: the decoder unconditionally reads positional arguments 2 and 3
of every navigate/pick/place action; whenever the solution contains a
recognized action with fewer than 3 positional arguments, decoding
fails with the out-of-range indexing error instead of returning a
plan. -/
theorem C10_short_recognized_action_errors (s : Solution)
    (acts : List PddlAction) (a : PddlAction)
    (hs : s.plan = some acts) (ha : a ∈ acts)
    (hrec : a.name = "navigate" ∨ a.name = "pick" ∨ a.name = "place")
    (hlen : a.args.length < 3) :
    pddlstream_solution_to_plan s = Except.error DecodeErr.indexError := by
  have herr := decodeAction_err hrec hlen
  have hacts := decodeActions_err ha herr
  rw [pstp_some hs, if_neg (fun h0 =>
    (List.ne_nil_of_mem ha) (List.length_eq_zero.mp h0)), hacts]

/-- Witness for C10 at a navigate action carrying one argument. -/
theorem C10_witness :
    pddlstream_solution_to_plan shortNavSolution =
      Except.error DecodeErr.indexError :=
  C10_short_recognized_action_errors shortNavSolution [shortNavAct]
    shortNavAct rfl (by simp) (Or.inl rfl) (by decide)

/-- Counterexample for C8: the solution holding the single recognized
action `navigate` with one argument is non-empty, yet the decoder
appends no `TaskAction` at all — it raises the indexing error instead
of returning a one-action plan. -/
theorem C8_counterexample :
    shortNavSolution.plan = some [shortNavAct] ∧
    ([shortNavAct] : List PddlAction) ≠ [] ∧
    pddlstream_solution_to_plan shortNavSolution =
      Except.error DecodeErr.indexError :=
  ⟨rfl, by decide, rfl⟩
